import Mathlib

/-!
Verification of the remote-object state tracking layer of the helvum patchbay.

The definitions below are a shallow embedding of
`src/pipewire_connection/state.rs` (the object state store) and of the
store-relevant parts of `src/pipewire_connection/mod.rs` (node classification,
port-info ingestion, link toggling).  Hash maps are embedded as association
lists whose insert keeps keys unique, so that `lookup`, `insert` and `erase`
have exactly the observable behaviour of `HashMap::get/insert/remove`.
-/

namespace Helvum

/-- `crate::MediaType` (`main.rs`); `Unknown` appears in the connection module. -/
inductive MediaType
  | audio
  | video
  | midi
  | unknown
deriving DecidableEq

/-- `crate::NodeType` (`main.rs`). -/
inductive NodeType
  | input
  | output
deriving DecidableEq

/-- `Item` from `state.rs`: any pipewire item the store keeps track of. -/
inductive Item
  | client (name : String)
  | node (media_type : Option MediaType) (ident_base : String)
  | port (node_id : Nat)
  | link (port_from : Nat) (port_to : Nat)
deriving DecidableEq

/-- Association-list model of `HashMap::get`. -/
def lookup {κ ν : Type} [DecidableEq κ] : List (κ × ν) → κ → Option ν
  | [], _ => none
  | (k, v) :: rest, key => if k = key then some v else lookup rest key

/-- Association-list model of `HashMap::remove`'s effect on the map:
every binding of `key` is dropped. -/
def erase {κ ν : Type} [DecidableEq κ] (m : List (κ × ν)) (key : κ) : List (κ × ν) :=
  m.filter (fun p => p.1 ≠ key)

/-- Association-list model of `HashMap::insert`: the new binding replaces
any previous binding of `key`. -/
def mapInsert {κ ν : Type} [DecidableEq κ] (m : List (κ × ν)) (key : κ) (v : ν) :
    List (κ × ν) :=
  (key, v) :: erase m key

/-- `State` from `state.rs`: items by id, the `(output port, input port) → link id`
index, and the per-base auto-increment table for node idents. -/
structure State where
  items : List (Nat × Item)
  links : List ((Nat × Nat) × Nat)
  ident_increments : List (String × Nat)
deriving DecidableEq

/-- `State::new`. -/
def State.new : State := ⟨[], [], []⟩

/-- `State::insert`: store the item under `id`; a `Link` additionally gets a
pair-index entry `(port_from, port_to) → id`. -/
def State.insert (s : State) (id : Nat) (item : Item) : State :=
  { items := mapInsert s.items id item
    links :=
      match item with
      | .link port_from port_to => mapInsert s.links (port_from, port_to) id
      | _ => s.links
    ident_increments := s.ident_increments }

/-- `State::get`. -/
def State.get (s : State) (id : Nat) : Option Item :=
  lookup s.items id

/-- `State::get_link_id`. -/
def State.get_link_id (s : State) (output_port input_port : Nat) : Option Nat :=
  lookup s.links (output_port, input_port)

/-- The auto-increment counter currently stored for `ident_base`
(`entry(..).or_insert(0)` reads 0 when the base is absent). -/
def identCounter (s : State) (ident_base : String) : Nat :=
  (lookup s.ident_increments ident_base).getD 0

/-- `State::get_node_ident`: bump the counter for the base and return
`format!("{}{}", ident_base, ident_increment)` with the bumped value.
The counter is a `u32`, so `*ident_increment += 1` wraps modulo
`2^32 = 4294967296` (release-build semantics; a debug build would panic at
the wrap instead). -/
def State.get_node_ident (s : State) (ident_base : String) : Option String × State :=
  let k := (identCounter s ident_base + 1) % 4294967296
  (some (ident_base ++ Nat.repr k),
   { s with ident_increments := mapInsert s.ident_increments ident_base k })

/-- Does this binding hold a `Node` whose `ident_base` equals `base`?
(the comparison done inside `State::remove`'s loop). -/
def nodeHasBase (base : String) : Nat × Item → Bool
  | (_, .node _ b) => b = base
  | _ => false

/-- `State::remove`: remove and return the item under `id`; a removed `Link`
also loses its pair-index entry; a removed `Node` clears the auto-increment
counter of its base when no node with the same base remains. -/
def State.remove (s : State) (id : Nat) : Option Item × State :=
  let removed := lookup s.items id
  let items' := erase s.items id
  (removed,
   { items := items'
     links :=
       match removed with
       | some (.link port_from port_to) => erase s.links (port_from, port_to)
       | _ => s.links
     ident_increments :=
       match removed with
       | some (.node _ base) =>
           if (items'.filter (nodeHasBase base)).length = 0 then
             erase s.ident_increments base
           else
             s.ident_increments
       | _ => s.ident_increments })

/-- `State::get_node_of_port`. -/
def State.get_node_of_port (s : State) (port : Nat) : Option Nat :=
  match s.get port with
  | some (.port node_id) => some node_id
  | _ => none

/-! ### Lookup lemmas for the association-list maps -/

theorem lookup_erase {κ ν : Type} [DecidableEq κ] (m : List (κ × ν)) (k key : κ) :
    lookup (erase m k) key = if key = k then none else lookup m key := by
  induction m with
  | nil => by_cases h : key = k <;> simp [erase, lookup, h]
  | cons p rest ih =>
    obtain ⟨a, b⟩ := p
    by_cases hak : a = k
    · have hdrop : erase ((a, b) :: rest) k = erase rest k := by
        simp [erase, List.filter_cons, hak]
      rw [hdrop, ih]
      by_cases hkey : key = k
      · simp [hkey]
      · have hka : ¬ a = key := fun hh => hkey (hh.symm.trans hak)
        simp [hkey, lookup, hka]
    · have hkeep : erase ((a, b) :: rest) k = (a, b) :: erase rest k := by
        simp [erase, List.filter_cons, hak]
      rw [hkeep]
      by_cases hakey : a = key
      · subst hakey
        simp [lookup, hak]
      · simp [lookup, hakey, ih]

theorem lookup_insert {κ ν : Type} [DecidableEq κ] (m : List (κ × ν)) (k key : κ) (v : ν) :
    lookup (mapInsert m k v) key = if key = k then some v else lookup m key := by
  by_cases h : k = key
  · subst h; simp [mapInsert, lookup]
  · have hkk : ¬ key = k := fun hh => h hh.symm
    simp only [mapInsert, lookup, if_neg h]
    rw [lookup_erase]
    simp [hkk]

theorem erase_of_lookup_none {κ ν : Type} [DecidableEq κ] (m : List (κ × ν)) (k : κ)
    (h : lookup m k = none) : erase m k = m := by
  induction m with
  | nil => rfl
  | cons p rest ih =>
    obtain ⟨a, b⟩ := p
    simp only [lookup] at h
    by_cases hak : a = k
    · simp [hak] at h
    · simp only [if_neg hak] at h
      have hkeep : erase ((a, b) :: rest) k = (a, b) :: erase rest k := by
        simp [erase, List.filter_cons, hak]
      rw [hkeep, ih h]

/-! ### Node classification (`handle_node`, `mod.rs`) -/

/-- Rust `str::contains`: `sub` occurs as a contiguous substring of `hay`. -/
def strContains (hay sub : String) : Bool :=
  decide (sub.toList <:+: hay.toList)

/-- The `media_class` closure of `handle_node`: classify a `media.class`
string by substring tests, `Sink`/`Input` first. -/
def media_class (cls : String) : Option NodeType :=
  if strContains cls "Sink" || strContains cls "Input" then some NodeType.input
  else if strContains cls "Source" || strContains cls "Output" then some NodeType.output
  else none

/-- The `node_type` computation of `handle_node`: inspect `media.category`
(a category containing `Duplex` yields `None` from the `and_then` chain),
then fall back through `or_else` to classifying `media.class` directly. -/
def node_type_of (props : List (String × String)) : Option NodeType :=
  (Option.bind (lookup props "media.category") (fun cat =>
    if strContains cat "Duplex" then none
    else Option.bind (lookup props "media.class") media_class)).orElse
    (fun _ => Option.bind (lookup props "media.class") media_class)

/-! ### Port info ingestion (`handle_port_info`, `mod.rs`) -/

/-- Accumulating decimal parser over characters; fails on a non-digit. -/
def parseNatCore : List Char → Nat → Option Nat
  | [], acc => some acc
  | c :: rest, acc =>
    if 48 ≤ c.toNat ∧ c.toNat ≤ 57 then parseNatCore rest (acc * 10 + (c.toNat - 48))
    else none

/-- Rust `str::parse::<u32>()` as used on the `node.id` property value:
a nonempty all-digit string parses to its decimal value, anything else fails. -/
def parseNat (s : String) : Option Nat :=
  match s.toList with
  | [] => none
  | c :: rest => parseNatCore (c :: rest) 0

/-- `ProxyItem` from `mod.rs` (payloads are transport handles, irrelevant here). -/
inductive ProxyItem
  | nodeProxy
  | portProxy
  | linkProxy
deriving DecidableEq

/-- The observable inputs of a port `info` event: the port id and the
optional property dictionary (`info.props()` returns an `Option`). -/
structure PortInfo where
  id : Nat
  props : Option (List (String × String))
deriving DecidableEq

/-- Outcome of `handle_port_info`: the early-return on an unknown proxy id
(logged at error level), the update path for an already-tracked port, the
insertion path, and the three `expect`/`parse` panic paths. -/
inductive PortInfoResult
  | unknownPortLogged
  | updated
  | added (node_id : Nat) (name : String)
  | panicMissingProps
  | panicMissingNodeId
  | panicBadNodeId
deriving DecidableEq

/-- `handle_port_info`: guard on the proxy map, then either treat the event
as an update (port already in the store) or extract `node.id` and insert
`Item::Port { node_id }`; a missing properties dict, a missing `node.id`
property, or an unparseable `node.id` panics via `expect`. -/
def handle_port_info (info : PortInfo) (proxies : List (Nat × ProxyItem)) (s : State) :
    PortInfoResult × State :=
  match lookup proxies info.id with
  | some ProxyItem.portProxy =>
    match s.get info.id with
    | some (.port _) => (.updated, s)
    | _ =>
      match info.props with
      | none => (.panicMissingProps, s)
      | some props =>
        let name := (lookup props "port.name").getD ""
        match lookup props "node.id" with
        | none => (.panicMissingNodeId, s)
        | some str =>
          match parseNat str with
          | none => (.panicBadNodeId, s)
          | some node_id => (.added node_id name, s.insert info.id (.port node_id))
  | _ => (.unknownPortLogged, s)

/-! ### Link toggling (`toggle_link`, `mod.rs`) -/

/-- The property bag passed to `core.create_object` for the link factory:
output node/port, input node/port, and the `object.linger` flag (always
set to `"1"` by the code). -/
structure CreateLinkRequest where
  output_node : Nat
  output_port : Nat
  input_node : Nat
  input_port : Nat
  linger : Bool
deriving DecidableEq

/-- Observable outcome of `toggle_link`: a `destroy_global` request, a
`create_object` request, or the panic raised by
`.expect("Requested port not in state")` when a port id is not tracked
as a `Port`. -/
inductive ToggleAction
  | destroyRequest (id : Nat)
  | createRequest (req : CreateLinkRequest)
  | panicPortNotInState
deriving DecidableEq

/-- `toggle_link`: destroy the indexed link of `(port_from, port_to)` if one
exists, otherwise create a link between the ports' owning nodes (looked up
through `get_node_of_port`, panicking when either port is untracked). -/
def toggle_link (port_from port_to : Nat) (s : State) : ToggleAction :=
  match s.get_link_id port_from port_to with
  | some id => .destroyRequest id
  | none =>
    match s.get_node_of_port port_from, s.get_node_of_port port_to with
    | some node_from, some node_to =>
        .createRequest ⟨node_from, port_from, node_to, port_to, true⟩
    | _, _ => .panicPortNotInState

/-! ### Event sequences over the store (for the tracking invariant) -/

/-- An insert or remove operation on the store, as performed by the
registry `global` / `global_remove` handlers. -/
inductive Op
  | ins (id : Nat) (item : Item)
  | rem (id : Nat)

/-- Apply one operation to the store. -/
def applyOp (s : State) : Op → State
  | .ins id item => s.insert id item
  | .rem id => (s.remove id).2

/-- Run a sequence of operations from a given store. -/
def runFrom (s : State) (ops : List Op) : State :=
  ops.foldl applyOp s

/-- Run a sequence of operations from the empty store. -/
def runOps (ops : List Op) : State :=
  runFrom State.new ops

/-- The specification view of `get` over an event history: the most recent
operation touching `id` decides the result (an insert makes it that item,
a remove makes it `none`, no operation leaves `none`). -/
def specGet (ops : List Op) (id : Nat) : Option Item :=
  ops.foldl
    (fun acc op =>
      match op with
      | Op.ins i item => if i = id then some item else acc
      | Op.rem i => if i = id then none else acc)
    none

/-! ### Characterizations of the store operations -/

theorem insert_eq (s : State) (id : Nat) (item : Item) :
    s.insert id item =
      { items := mapInsert s.items id item
        links :=
          match item with
          | .link port_from port_to => mapInsert s.links (port_from, port_to) id
          | _ => s.links
        ident_increments := s.ident_increments } := rfl

theorem remove_eq (s : State) (id : Nat) :
    s.remove id =
      (s.get id,
       { items := erase s.items id
         links :=
           match s.get id with
           | some (.link port_from port_to) => erase s.links (port_from, port_to)
           | _ => s.links
         ident_increments :=
           match s.get id with
           | some (.node _ base) =>
               if ((erase s.items id).filter (nodeHasBase base)).length = 0 then
                 erase s.ident_increments base
               else
                 s.ident_increments
           | _ => s.ident_increments }) := rfl

theorem get_insert (s : State) (id key : Nat) (item : Item) :
    (s.insert id item).get key = if key = id then some item else s.get key :=
  lookup_insert s.items id key item

theorem get_remove (s : State) (id key : Nat) :
    ((s.remove id).2).get key = if key = id then none else s.get key :=
  lookup_erase s.items id key

theorem get_link_id_insert_link (s : State) (id pf pt op ip : Nat) :
    (s.insert id (.link pf pt)).get_link_id op ip =
      if (op, ip) = (pf, pt) then some id else s.get_link_id op ip :=
  lookup_insert s.links (pf, pt) (op, ip) id

/-! ### Decoding decimal digit strings (to invert `Nat.repr`) -/

/-- Numeric value of a decimal digit character. -/
def decodeDigit (c : Char) : Nat := c.toNat - 48

/-- Fold a digit string onto an accumulator, most significant digit first. -/
def decodeFrom (a : Nat) (l : List Char) : Nat :=
  l.foldl (fun acc c => acc * 10 + decodeDigit c) a

theorem decodeFrom_append (a : Nat) (l1 l2 : List Char) :
    decodeFrom a (l1 ++ l2) = decodeFrom (decodeFrom a l1) l2 := by
  simp [decodeFrom, List.foldl_append]

theorem decodeDigit_digitChar : ∀ m, m < 10 → decodeDigit (Nat.digitChar m) = m := by
  decide

theorem toDigitsCore_append (b : Nat) :
    ∀ (fuel n : Nat) (ds : List Char),
      Nat.toDigitsCore b fuel n ds = Nat.toDigitsCore b fuel n [] ++ ds := by
  intro fuel
  induction fuel with
  | zero => intro n ds; simp [Nat.toDigitsCore]
  | succ f ih =>
    intro n ds
    simp only [Nat.toDigitsCore]
    by_cases h : n / b = 0
    · simp [h]
    · rw [if_neg h, if_neg h, ih (n / b) (Nat.digitChar (n % b) :: ds),
        ih (n / b) [Nat.digitChar (n % b)]]
      simp

theorem decode_toDigitsCore :
    ∀ (fuel n : Nat), n < 10 ^ fuel →
      decodeFrom 0 (Nat.toDigitsCore 10 fuel n []) = n := by
  intro fuel
  induction fuel with
  | zero =>
    intro n h
    have : n = 0 := by omega
    subst this
    simp [Nat.toDigitsCore, decodeFrom]
  | succ f ih =>
    intro n h
    have hd : decodeDigit (Nat.digitChar (n % 10)) = n % 10 :=
      decodeDigit_digitChar (n % 10) (Nat.mod_lt n (by norm_num))
    have hmod := Nat.div_add_mod n 10
    simp only [Nat.toDigitsCore]
    by_cases h0 : n / 10 = 0
    · simp only [if_pos h0]
      simp [decodeFrom, hd]
      omega
    · rw [if_neg h0, toDigitsCore_append 10 f (n / 10) [Nat.digitChar (n % 10)],
        decodeFrom_append]
      have hlt : n / 10 < 10 ^ f := by
        have h10 : (0 : Nat) < 10 := by norm_num
        rw [Nat.div_lt_iff_lt_mul h10]
        calc n < 10 ^ (f + 1) := h
          _ = 10 ^ f * 10 := by ring
      rw [ih (n / 10) hlt]
      simp [decodeFrom, hd]
      omega

theorem nat_repr_injective (m n : Nat) (h : Nat.repr m = Nat.repr n) : m = n := by
  have hdata : Nat.toDigits 10 m = Nat.toDigits 10 n := by
    have hc := congrArg String.data h
    simpa [Nat.repr, List.asString] using hc
  have hfuel : ∀ k : Nat, k < 10 ^ (k + 1) := by
    intro k
    calc k < 2 ^ k := Nat.lt_two_pow k
      _ ≤ 10 ^ k := Nat.pow_le_pow_left (by norm_num) k
      _ ≤ 10 ^ (k + 1) := Nat.pow_le_pow_right (by norm_num) (Nat.le_succ k)
  have hm : decodeFrom 0 (Nat.toDigits 10 m) = m := decode_toDigitsCore (m + 1) m (hfuel m)
  have hn : decodeFrom 0 (Nat.toDigits 10 n) = n := decode_toDigitsCore (n + 1) n (hfuel n)
  rw [← hm, ← hn, hdata]

theorem string_append_left_cancel (a b c : String) (h : a ++ b = a ++ c) : b = c := by
  have hd := congrArg String.data h
  simp only [String.data_append] at hd
  have htail := List.append_cancel_left hd
  cases b
  cases c
  exact congrArg String.mk htail

theorem append_repr_injective (b : String) (i j : Nat)
    (h : b ++ Nat.repr i = b ++ Nat.repr j) : i = j :=
  nat_repr_injective i j (string_append_left_cancel b _ _ h)

theorem links_remove_link (s : State) (id pf pt : Nat) (h : s.get id = some (.link pf pt)) :
    ((s.remove id).2).links = erase s.links (pf, pt) := by
  rw [remove_eq, h]

theorem get_link_id_remove_link (s : State) (id pf pt op ip : Nat)
    (h : s.get id = some (.link pf pt)) :
    ((s.remove id).2).get_link_id op ip =
      if (op, ip) = (pf, pt) then none else s.get_link_id op ip := by
  show lookup ((s.remove id).2).links (op, ip) = _
  rw [links_remove_link s id pf pt h, lookup_erase]
  rfl

theorem get_runFrom (ops : List Op) :
    ∀ (s : State) (id : Nat),
      (runFrom s ops).get id =
        ops.foldl
          (fun acc op =>
            match op with
            | Op.ins i item => if i = id then some item else acc
            | Op.rem i => if i = id then none else acc)
          (s.get id) := by
  induction ops with
  | nil => intro s id; rfl
  | cons op rest ih =>
    intro s id
    cases op with
    | ins i item =>
      show (runFrom (s.insert i item) rest).get id = _
      rw [ih]
      have hinit : (s.insert i item).get id = if i = id then some item else s.get id := by
        rw [get_insert]
        by_cases h : i = id
        · simp [h]
        · have h2 : ¬ id = i := fun hh => h hh.symm
          simp [h, h2]
      rw [hinit]
      rfl
    | rem i =>
      show (runFrom ((s.remove i).2) rest).get id = _
      rw [ih]
      have hinit : ((s.remove i).2).get id = if i = id then none else s.get id := by
        rw [get_remove]
        by_cases h : i = id
        · simp [h]
        · have h2 : ¬ id = i := fun hh => h hh.symm
          simp [h, h2]
      rw [hinit]
      rfl

/-- C1: starting from the empty store, for every sequence of insert/remove
operations, `get id` is decided by the most recent operation touching `id`:
it returns `some item` exactly when that operation was `insert id item`
(an insert with no later remove of `id` and no later overwriting insert);
in particular a never-inserted or last-removed id yields `none`. -/
theorem store_tracking_invariant (ops : List Op) (id : Nat) :
    (runOps ops).get id = specGet ops id := by
  have h := get_runFrom ops State.new id
  simpa [runOps, specGet, State.new, State.get, lookup] using h

/-- C8: removing the same id twice returns `none` on the second call and
leaves the item map, the pair index and the ident-increment table exactly as
the first call left them; when the id was never present, already the first
call returns `none` and leaves the whole store untouched. -/
theorem remove_idempotent (s : State) (id : Nat) :
    ((s.remove id).2.remove id).1 = none ∧
    ((s.remove id).2.remove id).2 = (s.remove id).2 ∧
    (s.get id = none → s.remove id = (none, s)) := by
  have hlook : lookup ((s.remove id).2).items id = none := by
    have h1 : ((s.remove id).2).items = erase s.items id := rfl
    rw [h1, lookup_erase]
    simp
  refine ⟨hlook, ?_, ?_⟩
  · have hget : ((s.remove id).2).get id = none := hlook
    rw [remove_eq ((s.remove id).2) id, hget]
    rw [show erase ((s.remove id).2).items id = ((s.remove id).2).items from
      erase_of_lookup_none _ _ hlook]
  · intro h
    have hl : lookup s.items id = none := h
    rw [remove_eq s id, h, erase_of_lookup_none s.items id hl]

/-- C8 witness: concrete instance at the empty store and id 3. -/
theorem remove_idempotent_witness :
    ((State.new.remove 3).2.remove 3).1 = none ∧ State.new.remove 3 = (none, State.new) := by
  obtain ⟨h1, _, h3⟩ := remove_idempotent State.new 3
  exact ⟨h1, h3 rfl⟩

/-- C10: inserting two links with distinct ids but the same port pair makes
the pair index point at the newer id only; removing either id erases the
single pair-index entry, so after removing the older id `get_link_id`
returns `none` although the newer link is still tracked in the item map. -/
theorem pair_index_aliasing (s : State) (id1 id2 pf pt : Nat) (hne : id1 ≠ id2) :
    (((s.insert id1 (.link pf pt)).insert id2 (.link pf pt)).get_link_id pf pt = some id2) ∧
    ((((s.insert id1 (.link pf pt)).insert id2 (.link pf pt)).remove id1).1
      = some (.link pf pt)) ∧
    (((((s.insert id1 (.link pf pt)).insert id2 (.link pf pt)).remove id1).2).get_link_id pf pt
      = none) ∧
    (((((s.insert id1 (.link pf pt)).insert id2 (.link pf pt)).remove id1).2).get id2
      = some (.link pf pt)) ∧
    (((((s.insert id1 (.link pf pt)).insert id2 (.link pf pt)).remove id2).2).get_link_id pf pt
      = none) := by
  set s2 := (s.insert id1 (.link pf pt)).insert id2 (.link pf pt) with hs2
  have hget2 : s2.get id2 = some (.link pf pt) := by
    rw [hs2, get_insert]
    simp
  have hget1 : s2.get id1 = some (.link pf pt) := by
    rw [hs2, get_insert, get_insert]
    simp [hne]
  have hlink : s2.get_link_id pf pt = some id2 := by
    rw [hs2, get_link_id_insert_link]
    simp
  refine ⟨hlink, hget1, ?_, ?_, ?_⟩
  · rw [get_link_id_remove_link s2 id1 pf pt pf pt hget1]
    simp
  · rw [get_remove]
    have h21 : ¬ id2 = id1 := fun hh => hne hh.symm
    simp [h21, hget2]
  · rw [get_link_id_remove_link s2 id2 pf pt pf pt hget2]
    simp

/-- C10 witness: concrete aliasing instance with ids 1 and 2 on pair (10, 20). -/
theorem pair_index_aliasing_witness :
    (((State.new.insert 1 (Item.link 10 20)).insert 2 (Item.link 10 20)).get_link_id 10 20
      = some 2) ∧
    (((((State.new.insert 1 (Item.link 10 20)).insert 2 (Item.link 10 20)).remove 1).2).get_link_id
      10 20 = none) ∧
    (((((State.new.insert 1 (Item.link 10 20)).insert 2 (Item.link 10 20)).remove 1).2).get 2
      = some (Item.link 10 20)) := by
  obtain ⟨h1, _, h3, h4, _⟩ := pair_index_aliasing State.new 1 2 10 20 (by decide)
  exact ⟨h1, h3, h4⟩

/-! ### Link-index consistency -/

/-- The pair index and the item map agree on links, in both directions. -/
def LinkIndexInv (s : State) : Prop :=
  (∀ pf pt id, s.get_link_id pf pt = some id → s.get id = some (Item.link pf pt)) ∧
  (∀ id pf pt, s.get id = some (Item.link pf pt) → s.get_link_id pf pt = some id)

theorem linkInv_insert_nonlink (s : State) (id : Nat) (item : Item)
    (hinv : LinkIndexInv s) (hfresh : s.get id = none)
    (hlinks : (s.insert id item).links = s.links)
    (hnotlink : ∀ pf pt, item ≠ Item.link pf pt) :
    LinkIndexInv (s.insert id item) := by
  obtain ⟨hfwd, hbwd⟩ := hinv
  have hgl : ∀ op ip, (s.insert id item).get_link_id op ip = s.get_link_id op ip := by
    intro op ip
    show lookup (s.insert id item).links (op, ip) = _
    rw [hlinks]
    rfl
  constructor
  · intro pf pt id2 hl
    rw [hgl] at hl
    have hitem := hfwd pf pt id2 hl
    rw [get_insert]
    have hne : ¬ id2 = id := by
      intro hh
      subst hh
      rw [hfresh] at hitem
      exact Option.noConfusion hitem
    rw [if_neg hne]
    exact hitem
  · intro id2 pf pt hi
    rw [get_insert] at hi
    rw [hgl]
    by_cases hid : id2 = id
    · rw [if_pos hid] at hi
      injection hi with hit
      exact absurd hit (hnotlink pf pt)
    · rw [if_neg hid] at hi
      exact hbwd id2 pf pt hi

theorem linkInv_insert (s : State) (id : Nat) (item : Item)
    (hinv : LinkIndexInv s) (hfresh : s.get id = none)
    (hpair : ∀ pf pt, item = Item.link pf pt → s.get_link_id pf pt = none) :
    LinkIndexInv (s.insert id item) := by
  cases item with
  | link pf0 pt0 =>
    obtain ⟨hfwd, hbwd⟩ := hinv
    constructor
    · intro pf pt id2 hl
      rw [get_link_id_insert_link] at hl
      rw [get_insert]
      by_cases hp : (pf, pt) = (pf0, pt0)
      · rw [if_pos hp] at hl
        injection hl with hid
        subst hid
        simp only [Prod.mk.injEq] at hp
        obtain ⟨rfl, rfl⟩ := hp
        simp
      · rw [if_neg hp] at hl
        have hitem := hfwd pf pt id2 hl
        have hne : ¬ id2 = id := by
          intro hh
          subst hh
          rw [hfresh] at hitem
          exact Option.noConfusion hitem
        rw [if_neg hne]
        exact hitem
    · intro id2 pf pt hi
      rw [get_insert] at hi
      rw [get_link_id_insert_link]
      by_cases hid : id2 = id
      · rw [if_pos hid] at hi
        injection hi with hit
        injection hit with h1 h2
        subst h1
        subst h2
        subst hid
        simp
      · rw [if_neg hid] at hi
        have hl := hbwd id2 pf pt hi
        by_cases hp : (pf, pt) = (pf0, pt0)
        · exfalso
          simp only [Prod.mk.injEq] at hp
          obtain ⟨rfl, rfl⟩ := hp
          have h0 := hpair pf pt rfl
          rw [hl] at h0
          exact Option.noConfusion h0
        · rw [if_neg hp]
          exact hl
  | client name =>
    exact linkInv_insert_nonlink _ _ _ hinv hfresh rfl (fun _ _ h => Item.noConfusion h)
  | node mt b =>
    exact linkInv_insert_nonlink _ _ _ hinv hfresh rfl (fun _ _ h => Item.noConfusion h)
  | port nid =>
    exact linkInv_insert_nonlink _ _ _ hinv hfresh rfl (fun _ _ h => Item.noConfusion h)

theorem get_link_id_remove_nonlink (s : State) (id : Nat)
    (h : ∀ pf pt, s.get id ≠ some (Item.link pf pt)) :
    ∀ op ip, ((s.remove id).2).get_link_id op ip = s.get_link_id op ip := by
  intro op ip
  show lookup ((s.remove id).2).links (op, ip) = _
  have hlinks : ((s.remove id).2).links = s.links := by
    rw [remove_eq]
    cases hg : s.get id with
    | none => rfl
    | some item =>
      cases item with
      | link pf pt => exact absurd hg (h pf pt)
      | client name => rfl
      | node mt b => rfl
      | port nid => rfl
  rw [hlinks]
  rfl

theorem linkInv_remove_aux (s : State) (id : Nat) (item : Item)
    (hinv : LinkIndexInv s) (hg : s.get id = some item)
    (hnl : ∀ pf pt, item ≠ Item.link pf pt) :
    LinkIndexInv ((s.remove id).2) := by
  obtain ⟨hfwd, hbwd⟩ := hinv
  have hne_link : ∀ pf pt, s.get id ≠ some (Item.link pf pt) := by
    intro pf pt hh
    rw [hg] at hh
    injection hh with hh2
    exact hnl pf pt hh2
  have hgl := get_link_id_remove_nonlink s id hne_link
  constructor
  · intro pf pt id2 hl
    rw [hgl] at hl
    have hitem := hfwd pf pt id2 hl
    rw [get_remove]
    have hne : ¬ id2 = id := by
      intro hh
      subst hh
      rw [hg] at hitem
      injection hitem with hit
      exact hnl pf pt hit
    rw [if_neg hne]
    exact hitem
  · intro id2 pf pt hi
    rw [get_remove] at hi
    by_cases hid : id2 = id
    · rw [if_pos hid] at hi
      exact Option.noConfusion hi
    · rw [if_neg hid] at hi
      rw [hgl]
      exact hbwd id2 pf pt hi

theorem linkInv_remove (s : State) (id : Nat) (hinv : LinkIndexInv s) :
    LinkIndexInv ((s.remove id).2) := by
  cases hg : s.get id with
  | none =>
    have hitems : erase s.items id = s.items := erase_of_lookup_none s.items id hg
    have hstate : (s.remove id).2 = s := by
      rw [remove_eq, hg, hitems]
    rw [hstate]
    exact hinv
  | some item =>
    cases item with
    | link pf0 pt0 =>
      obtain ⟨hfwd, hbwd⟩ := hinv
      constructor
      · intro pf pt id2 hl
        rw [get_link_id_remove_link s id pf0 pt0 pf pt hg] at hl
        by_cases hp : (pf, pt) = (pf0, pt0)
        · rw [if_pos hp] at hl
          exact Option.noConfusion hl
        · rw [if_neg hp] at hl
          have hitem := hfwd pf pt id2 hl
          rw [get_remove]
          have hne : ¬ id2 = id := by
            intro hh
            subst hh
            rw [hg] at hitem
            injection hitem with hit
            injection hit with h1 h2
            exact hp (by rw [h1, h2])
          rw [if_neg hne]
          exact hitem
      · intro id2 pf pt hi
        rw [get_remove] at hi
        by_cases hid : id2 = id
        · rw [if_pos hid] at hi
          exact Option.noConfusion hi
        · rw [if_neg hid] at hi
          have hl := hbwd id2 pf pt hi
          rw [get_link_id_remove_link s id pf0 pt0 pf pt hg]
          by_cases hp : (pf, pt) = (pf0, pt0)
          · exfalso
            have hl0 := hbwd id pf0 pt0 hg
            simp only [Prod.mk.injEq] at hp
            obtain ⟨rfl, rfl⟩ := hp
            rw [hl] at hl0
            injection hl0 with hh
            exact hid hh
          · rw [if_neg hp]
            exact hl
    | client name =>
      exact linkInv_remove_aux _ _ _ hinv hg (fun _ _ h => Item.noConfusion h)
    | node mt b =>
      exact linkInv_remove_aux _ _ _ hinv hg (fun _ _ h => Item.noConfusion h)
    | port nid =>
      exact linkInv_remove_aux _ _ _ hinv hg (fun _ _ h => Item.noConfusion h)

/-- C2 (amended): the link-index consistency invariant holds for the empty
store, is preserved by `insert` with a fresh id whose link pair (if any) is
not yet indexed, and is preserved by every `remove`; under the invariant a
`Link` tracked under `id` has `get_link_id` of its pair equal to `some id`;
removing a tracked link always clears its pair entry; and inserting a link
establishes the item and its index entry together. -/
theorem pair_index_consistency :
    LinkIndexInv State.new ∧
    (∀ (s : State) (id : Nat) (item : Item), LinkIndexInv s → s.get id = none →
      (∀ pf pt, item = Item.link pf pt → s.get_link_id pf pt = none) →
      LinkIndexInv (s.insert id item)) ∧
    (∀ (s : State) (id : Nat), LinkIndexInv s → LinkIndexInv ((s.remove id).2)) ∧
    (∀ (s : State) (id pf pt : Nat), LinkIndexInv s → s.get id = some (Item.link pf pt) →
      s.get_link_id pf pt = some id) ∧
    (∀ (s : State) (id pf pt : Nat), s.get id = some (Item.link pf pt) →
      ((s.remove id).2).get_link_id pf pt = none) ∧
    (∀ (s : State) (id pf pt : Nat),
      (s.insert id (Item.link pf pt)).get id = some (Item.link pf pt) ∧
      (s.insert id (Item.link pf pt)).get_link_id pf pt = some id) := by
  refine ⟨⟨?_, ?_⟩, linkInv_insert, linkInv_remove, ?_, ?_, ?_⟩
  · intro pf pt id h
    exact Option.noConfusion h
  · intro id pf pt h
    exact Option.noConfusion h
  · intro s id pf pt hinv hg
    exact hinv.2 id pf pt hg
  · intro s id pf pt hg
    rw [get_link_id_remove_link s id pf pt pf pt hg]
    simp
  · intro s id pf pt
    constructor
    · rw [get_insert]
      simp
    · rw [get_link_id_insert_link]
      simp

/-- C2 witness: a concrete link under the invariant is indexed, and its
removal clears the index entry. -/
theorem pair_index_consistency_witness :
    (State.new.insert 100 (Item.link 10 20)).get_link_id 10 20 = some 100 ∧
    (((State.new.insert 100 (Item.link 10 20)).remove 100).2).get_link_id 10 20 = none := by
  obtain ⟨hnew, hins, _, htracked, hremnone, _⟩ := pair_index_consistency
  have hinv1 : LinkIndexInv (State.new.insert 100 (Item.link 10 20)) :=
    hins State.new 100 (Item.link 10 20) hnew rfl (fun _ _ _ => rfl)
  exact ⟨htracked _ 100 10 20 hinv1 rfl, hremnone _ 100 10 20 rfl⟩

/-- C2 counterexample: with two tracked links sharing the pair (10, 20), the
link tracked under id 1 does not satisfy `get_link_id 10 20 = some 1` — the
index points at id 2, the most recent insert. -/
theorem pair_index_consistency_cex :
    ((State.new.insert 1 (Item.link 10 20)).insert 2 (Item.link 10 20)).get 1
      = some (Item.link 10 20) ∧
    ((State.new.insert 1 (Item.link 10 20)).insert 2 (Item.link 10 20)).get_link_id 10 20
      ≠ some 1 := by
  decide

/-! ### Toggle behaviour -/

/-- A store with one tracked link, id 7, connecting ports 1 → 2. -/
def linkedStore : State := State.new.insert 7 (Item.link 1 2)

/-- A store tracking two nodes (100, 200) and two ports (1 on node 100,
2 on node 200), with no link. -/
def fullStore : State :=
  (((State.new.insert 100 (Item.node none "a")).insert 200 (Item.node none "b")).insert 1
    (Item.port 100)).insert 2 (Item.port 200)

/-- A store tracking ports 1 and 2 whose owning nodes 99 and 98 are not
themselves tracked. -/
def untrackedNodeStore : State := (State.new.insert 1 (Item.port 99)).insert 2 (Item.port 98)

/-- C3: `toggle_link` issues a destroy request for `id` exactly when the pair
index maps `(port_from, port_to)` to `id`; otherwise, when both ports and
their owning nodes are tracked, it issues the single create request whose
output node/port are the from-port's owning node and id, whose input
node/port are the to-port's owning node and id, and which carries the
linger hint; an already-linked pair therefore never gets a second create. -/
theorem toggle_decision (s : State) (pf pt : Nat) :
    (∀ id, toggle_link pf pt s = ToggleAction.destroyRequest id ↔
      s.get_link_id pf pt = some id) ∧
    (∀ (nf nt : Nat) (mt1 : Option MediaType) (b1 : String)
        (mt2 : Option MediaType) (b2 : String),
      s.get_link_id pf pt = none →
      s.get pf = some (Item.port nf) → s.get pt = some (Item.port nt) →
      s.get nf = some (Item.node mt1 b1) → s.get nt = some (Item.node mt2 b2) →
      toggle_link pf pt s = ToggleAction.createRequest ⟨nf, pf, nt, pt, true⟩) := by
  constructor
  · intro id
    cases hl : s.get_link_id pf pt with
    | some id0 => simp [toggle_link, hl]
    | none =>
      cases hf : s.get_node_of_port pf with
      | some nf =>
        cases ht : s.get_node_of_port pt with
        | some nt => simp [toggle_link, hl, hf, ht]
        | none => simp [toggle_link, hl, hf, ht]
      | none =>
        cases ht : s.get_node_of_port pt with
        | some nt => simp [toggle_link, hl, hf, ht]
        | none => simp [toggle_link, hl, hf, ht]
  · intro nf nt mt1 b1 mt2 b2 hl hpf hpt _ _
    have hf : s.get_node_of_port pf = some nf := by simp [State.get_node_of_port, hpf]
    have ht : s.get_node_of_port pt = some nt := by simp [State.get_node_of_port, hpt]
    simp [toggle_link, hl, hf, ht]

/-- C3 witness: a linked pair gets a destroy request for the tracked link id,
and an unlinked pair with tracked ports and nodes gets the create request. -/
theorem toggle_decision_witness :
    toggle_link 1 2 linkedStore = ToggleAction.destroyRequest 7 ∧
    toggle_link 1 2 fullStore = ToggleAction.createRequest ⟨100, 1, 200, 2, true⟩ := by
  constructor
  · exact ((toggle_decision linkedStore 1 2).1 7).mpr rfl
  · exact (toggle_decision fullStore 1 2).2 100 200 none "a" none "b" rfl rfl rfl rfl rfl

/-- C7 counterexample: with no link indexed, an untracked port makes
`toggle_link` panic (the `expect` call) instead of failing gracefully, and
tracked ports whose owning nodes are untracked still produce a remote
create request instead of failing locally. -/
theorem toggle_failure_cex :
    State.new.get_link_id 1 2 = none ∧
    State.new.get 1 = none ∧
    toggle_link 1 2 State.new = ToggleAction.panicPortNotInState ∧
    untrackedNodeStore.get_link_id 1 2 = none ∧
    untrackedNodeStore.get 99 = none ∧
    untrackedNodeStore.get 98 = none ∧
    toggle_link 1 2 untrackedNodeStore = ToggleAction.createRequest ⟨99, 1, 98, 2, true⟩ := by
  decide

/-- C7 (amended): when no link is indexed for the pair, `toggle_link` panics
via `expect` if either port id is not tracked as a `Port`; otherwise it
issues exactly one create request built from the ports' stored owning-node
ids, whether or not those nodes are tracked. -/
theorem toggle_failure_amended (s : State) (pf pt : Nat)
    (hl : s.get_link_id pf pt = none) :
    ((s.get_node_of_port pf = none ∨ s.get_node_of_port pt = none) →
      toggle_link pf pt s = ToggleAction.panicPortNotInState) ∧
    (∀ nf nt, s.get_node_of_port pf = some nf → s.get_node_of_port pt = some nt →
      toggle_link pf pt s = ToggleAction.createRequest ⟨nf, pf, nt, pt, true⟩) := by
  constructor
  · intro h
    cases hf : s.get_node_of_port pf with
    | none =>
      cases ht : s.get_node_of_port pt with
      | none => simp [toggle_link, hl, hf, ht]
      | some nt => simp [toggle_link, hl, hf, ht]
    | some nf =>
      cases ht : s.get_node_of_port pt with
      | none => simp [toggle_link, hl, hf, ht]
      | some nt =>
        exfalso
        cases h with
        | inl h1 => rw [hf] at h1; exact Option.noConfusion h1
        | inr h2 => rw [ht] at h2; exact Option.noConfusion h2
  · intro nf nt hf ht
    simp [toggle_link, hl, hf, ht]

/-- C7 amended witness: the panic at an empty store, and the create request
despite untracked owning nodes. -/
theorem toggle_failure_amended_witness :
    toggle_link 3 4 State.new = ToggleAction.panicPortNotInState ∧
    toggle_link 1 2 untrackedNodeStore = ToggleAction.createRequest ⟨99, 1, 98, 2, true⟩ := by
  constructor
  · exact (toggle_failure_amended State.new 3 4 rfl).1 (Or.inl rfl)
  · exact (toggle_failure_amended untrackedNodeStore 1 2 rfl).2 99 98 rfl rfl

/-! ### Port-info ingestion claims -/

/-- A first-seen port info event for port 5 whose `node.id` is 7. -/
def portInfo47 : PortInfo := ⟨5, some [("node.id", "7"), ("port.name", "out")]⟩

/-- A port info event for port 5 lacking the `node.id` property. -/
def portInfoNoNode : PortInfo := ⟨5, some [("port.name", "out")]⟩

/-- A proxy map knowing port 5. -/
def proxiesP5 : List (Nat × ProxyItem) := [(5, ProxyItem.portProxy)]

/-- C4 counterexample: a port info event whose `node.id` (7) references a
node that is not tracked is not rejected — the port is inserted and the
store changes, with no check of the owning node. -/
theorem port_before_node_cex :
    State.new.get 7 = none ∧
    handle_port_info portInfo47 proxiesP5 State.new =
      (PortInfoResult.added 7 "out", State.new.insert 5 (Item.port 7)) ∧
    (State.new.insert 5 (Item.port 7)).get 5 = some (Item.port 7) := by
  decide

/-- C4 (amended): a first-seen port info event with a known port proxy and a
parseable `node.id` property always inserts the `Port` item, whether or not
the owning node is tracked; no validation of `owning_node_id` happens. -/
theorem port_insert_unconditional (info : PortInfo) (proxies : List (Nat × ProxyItem))
    (s : State) (props : List (String × String)) (str : String) (n : Nat)
    (hproxy : lookup proxies info.id = some ProxyItem.portProxy)
    (hnew : ∀ m, s.get info.id ≠ some (Item.port m))
    (hprops : info.props = some props)
    (hnode : lookup props "node.id" = some str)
    (hparse : parseNat str = some n) :
    handle_port_info info proxies s =
      (PortInfoResult.added n ((lookup props "port.name").getD ""),
       s.insert info.id (Item.port n)) := by
  cases hg : s.get info.id with
  | none => simp [handle_port_info, hproxy, hg, hprops, hnode, hparse]
  | some it =>
    cases it with
    | port m => exact absurd hg (hnew m)
    | client name => simp [handle_port_info, hproxy, hg, hprops, hnode, hparse]
    | node mt b => simp [handle_port_info, hproxy, hg, hprops, hnode, hparse]
    | link a b => simp [handle_port_info, hproxy, hg, hprops, hnode, hparse]

/-- C4 amended witness: the concrete event of the counterexample goes through
the theorem's insertion path. -/
theorem port_insert_unconditional_witness :
    handle_port_info portInfo47 proxiesP5 State.new =
      (PortInfoResult.added 7
        ((lookup [("node.id", "7"), ("port.name", "out")] "port.name").getD ""),
       State.new.insert 5 (Item.port 7)) :=
  port_insert_unconditional portInfo47 proxiesP5 State.new
    [("node.id", "7"), ("port.name", "out")] "7" 7 rfl
    (fun _ h => Option.noConfusion h) rfl rfl rfl

/-- C6 counterexample: a first-seen port info event lacking the `node.id`
property makes processing panic (the `expect` call) instead of aborting with
an error log. -/
theorem missing_property_cex :
    handle_port_info portInfoNoNode proxiesP5 State.new =
      (PortInfoResult.panicMissingNodeId, State.new) := by
  decide

/-- C6 (amended): a first-seen port info event lacking the `node.id` property
panics via `expect` — the thread crashes — with the store unchanged up to the
panic; only the unknown-proxy-id case is logged at error level and aborted
without crashing. -/
theorem missing_property_amended :
    (∀ (info : PortInfo) (proxies : List (Nat × ProxyItem)) (s : State)
        (props : List (String × String)),
      lookup proxies info.id = some ProxyItem.portProxy →
      (∀ m, s.get info.id ≠ some (Item.port m)) →
      info.props = some props →
      lookup props "node.id" = none →
      handle_port_info info proxies s = (PortInfoResult.panicMissingNodeId, s)) ∧
    (∀ (info : PortInfo) (proxies : List (Nat × ProxyItem)) (s : State),
      lookup proxies info.id = none →
      handle_port_info info proxies s = (PortInfoResult.unknownPortLogged, s)) := by
  constructor
  · intro info proxies s props hproxy hnew hprops hnode
    cases hg : s.get info.id with
    | none => simp [handle_port_info, hproxy, hg, hprops, hnode]
    | some it =>
      cases it with
      | port m => exact absurd hg (hnew m)
      | client name => simp [handle_port_info, hproxy, hg, hprops, hnode]
      | node mt b => simp [handle_port_info, hproxy, hg, hprops, hnode]
      | link a b => simp [handle_port_info, hproxy, hg, hprops, hnode]
  · intro info proxies s hproxy
    simp [handle_port_info, hproxy]

/-- C6 amended witness: the concrete missing-property event panics, and an
unknown proxy id is logged and aborted. -/
theorem missing_property_amended_witness :
    handle_port_info portInfoNoNode proxiesP5 State.new =
      (PortInfoResult.panicMissingNodeId, State.new) ∧
    handle_port_info portInfoNoNode [] State.new =
      (PortInfoResult.unknownPortLogged, State.new) :=
  ⟨missing_property_amended.1 portInfoNoNode proxiesP5 State.new [("port.name", "out")] rfl
      (fun _ h => Option.noConfusion h) rfl rfl,
   missing_property_amended.2 portInfoNoNode [] State.new rfl⟩

/-! ### Node classification claim -/

/-- C5 (code observation): the `Duplex ⇒ None` rule is dead code — with
`media.category = "Duplex"` and `media.class = "Audio/Sink"` the code yields
`Input`, because the trailing `or_else` recomputes the class-based
classification whenever the category chain produced `None`; in fact
`node_type_of` always equals the plain class-based classification. -/
theorem node_type_duplex_not_forced_none :
    node_type_of [("media.category", "Duplex"), ("media.class", "Audio/Sink")]
      = some NodeType.input ∧
    node_type_of [("media.class", "Audio/Sink")] = some NodeType.input ∧
    node_type_of [("media.category", "Duplex")] = none ∧
    (∀ props, node_type_of props = Option.bind (lookup props "media.class") media_class) := by
  refine ⟨by decide, by decide, by decide, ?_⟩
  intro props
  cases hc : lookup props "media.category" with
  | none =>
    cases hb : Option.bind (lookup props "media.class") media_class with
    | none => simp [node_type_of, hc, hb, Option.orElse]
    | some v => simp [node_type_of, hc, hb, Option.orElse]
  | some cat =>
    by_cases hd : strContains cat "Duplex"
    · cases hb : Option.bind (lookup props "media.class") media_class with
      | none => simp [node_type_of, hc, hd, hb, Option.orElse]
      | some v => simp [node_type_of, hc, hd, hb, Option.orElse]
    · cases hb : Option.bind (lookup props "media.class") media_class with
      | none => simp [node_type_of, hc, hd, hb, Option.orElse]
      | some v => simp [node_type_of, hc, hd, hb, Option.orElse]

/-! ### Node ident generation -/

/-- The store after `k` successive `get_node_ident` calls with base `b`. -/
def iterIdentState (s : State) (b : String) : Nat → State
  | 0 => s
  | k + 1 => ((iterIdentState s b k).get_node_ident b).2

theorem ident_increments_after (s : State) (b : String) :
    ((s.get_node_ident b).2).ident_increments =
      mapInsert s.ident_increments b ((identCounter s b + 1) % 4294967296) := rfl

theorem identCounter_step (s : State) (b : String) :
    identCounter ((s.get_node_ident b).2) b = (identCounter s b + 1) % 4294967296 := by
  show (lookup ((s.get_node_ident b).2).ident_increments b).getD 0 = _
  rw [ident_increments_after, lookup_insert]
  simp

theorem identCounter_iter (s : State) (b : String)
    (h : lookup s.ident_increments b = none) :
    ∀ k, identCounter (iterIdentState s b k) b = k % 4294967296 := by
  intro k
  induction k with
  | zero => simp [iterIdentState, identCounter, h]
  | succ n ih =>
    show identCounter ((iterIdentState s b n).get_node_ident b).2 b = (n + 1) % 4294967296
    rw [identCounter_step, ih]
    omega

/-- A store tracking one node, id 42, with ident base `alsa`. -/
def nodeStoreA : State := State.new.insert 42 (Item.node none "alsa")

/-- C9 (amended): `get_node_ident` always returns `some`; starting from a
store whose counter for the base is absent, the `(k+1)`-th call returns the
base followed by the decimal numeral `k+1` whenever `k+1 < 2^32`, so the
calls numbered below `2^32` return pairwise distinct strings (the `u32`
counter wraps modulo `2^32`, after which the numbering repeats); and
removing the last tracked node with a given base clears that base's counter,
making the next call return the base followed by `1`. -/
theorem node_ident_generation :
    (∀ (s : State) (b : String), ((s.get_node_ident b).1).isSome = true) ∧
    (∀ (s : State) (b : String) (k : Nat), lookup s.ident_increments b = none →
      k + 1 < 4294967296 →
      ((iterIdentState s b k).get_node_ident b).1 = some (b ++ Nat.repr (k + 1))) ∧
    (∀ (s : State) (b : String) (i j : Nat), lookup s.ident_increments b = none →
      i + 1 < 4294967296 → j + 1 < 4294967296 → i ≠ j →
      ((iterIdentState s b i).get_node_ident b).1 ≠
        ((iterIdentState s b j).get_node_ident b).1) ∧
    (∀ (s : State) (id : Nat) (mt : Option MediaType) (b : String),
      s.get id = some (Item.node mt b) →
      (erase s.items id).filter (nodeHasBase b) = [] →
      lookup ((s.remove id).2).ident_increments b = none ∧
      (((s.remove id).2).get_node_ident b).1 = some (b ++ Nat.repr 1)) := by
  have hres : ∀ (s : State) (b : String),
      (s.get_node_ident b).1
        = some (b ++ Nat.repr ((identCounter s b + 1) % 4294967296)) :=
    fun s b => rfl
  refine ⟨?_, ?_, ?_, ?_⟩
  · intro s b
    rw [hres]
    rfl
  · intro s b k h hk
    have hmod : (identCounter (iterIdentState s b k) b + 1) % 4294967296 = k + 1 := by
      rw [identCounter_iter s b h k]
      omega
    rw [hres, hmod]
  · intro s b i j h hi hj hij heq
    have hmi : (identCounter (iterIdentState s b i) b + 1) % 4294967296 = i + 1 := by
      rw [identCounter_iter s b h i]
      omega
    have hmj : (identCounter (iterIdentState s b j) b + 1) % 4294967296 = j + 1 := by
      rw [identCounter_iter s b h j]
      omega
    rw [hres, hres, hmi, hmj] at heq
    injection heq with heq2
    have := append_repr_injective b (i + 1) (j + 1) heq2
    exact hij (by omega)
  · intro s id mt b hg hempty
    have hidents : ((s.remove id).2).ident_increments = erase s.ident_increments b := by
      have hif : ((s.remove id).2).ident_increments =
          if ((erase s.items id).filter (nodeHasBase b)).length = 0 then
            erase s.ident_increments b
          else s.ident_increments := by
        rw [remove_eq, hg]
      rw [hif, hempty]
      simp
    constructor
    · rw [hidents, lookup_erase]
      simp
    · rw [hres]
      have hzero : identCounter ((s.remove id).2) b = 0 := by
        simp [identCounter, hidents, lookup_erase]
      rw [hzero]

/-- C9 counterexample: the `u32` ident counter wraps modulo `2^32`, so the
1st call and the `(2^32+1)`-th call with base `a` both return `a1`; in
particular the `(2^32+1)`-th call does not return the base followed by the
decimal numeral `2^32+1`, refuting the unconditional per-call numbering and
the unconditional pairwise distinctness of the original claim. -/
theorem node_ident_generation_cex :
    ((iterIdentState State.new "a" 0).get_node_ident "a").1 = some ("a" ++ Nat.repr 1) ∧
    ((iterIdentState State.new "a" 4294967296).get_node_ident "a").1
      = some ("a" ++ Nat.repr 1) ∧
    ("a" ++ Nat.repr 1) ≠ ("a" ++ Nat.repr 4294967297) := by
  have hres : ∀ (s : State) (b : String),
      (s.get_node_ident b).1
        = some (b ++ Nat.repr ((identCounter s b + 1) % 4294967296)) :=
    fun s b => rfl
  refine ⟨rfl, ?_, ?_⟩
  · have hc : identCounter (iterIdentState State.new "a" 4294967296) "a" = 0 := by
      rw [identCounter_iter State.new "a" rfl 4294967296]
    rw [hres, hc]
  · intro h
    have := append_repr_injective "a" 1 4294967297 h
    omega

/-- C9 witness: concrete ident generation for base `alsa` and the counter
reset after removing the only `alsa` node. -/
theorem node_ident_generation_witness :
    ((State.new.get_node_ident "alsa").1).isSome = true ∧
    ((iterIdentState State.new "alsa" 1).get_node_ident "alsa").1
      = some ("alsa" ++ Nat.repr 2) ∧
    ((iterIdentState State.new "alsa" 0).get_node_ident "alsa").1 ≠
      ((iterIdentState State.new "alsa" 1).get_node_ident "alsa").1 ∧
    lookup ((nodeStoreA.remove 42).2).ident_increments "alsa" = none := by
  obtain ⟨h1, h2, h3, h4⟩ := node_ident_generation
  exact ⟨h1 State.new "alsa", h2 State.new "alsa" 1 rfl (by decide),
    h3 State.new "alsa" 0 1 rfl (by decide) (by decide) (by decide),
    (h4 nodeStoreA 42 none "alsa" rfl (by decide)).1⟩

end Helvum
